import Mathlib

/-!
Verification development for the `nonebot-plugin-simple-gpt` repository.

The Python sources are shallowly embedded as executable Lean definitions:

* `src/__init__.py`  — configuration, `HistoryManager`, `generate_prompt`,
  `call_large_language_model`, `should_reply`, and the message handler.
* `src/plugin_system.py` — payload shapes, `SimpleGPTPlugin`, `PluginManager`.
* `src/plugins/remove_think.py` — `RemoveThinkTagPlugin`.
* `src/image_utils.py` — image segment normalization (data URLs).

External effects (filesystem reads, HTTP downloads, `imghdr` sniffing,
`mimetypes` guessing, the remote chat-completion call, the random draw) are
modelled as explicit oracle parameters, so every definition stays total and
executable.  Python exceptions that escape a function are modelled with
`Except Unit`; `None` results are `Option.none`.
-/

namespace SimpleGPT

/-! ## Python string primitives

Python `str.strip()` removes leading and trailing whitespace.  We model the
ASCII whitespace characters Python recognises (space, tab, LF, CR, VT, FF);
exotic Unicode whitespace is out of scope for every claim below. -/

def isPyWs (c : Char) : Bool :=
  c = ' ' || c = '\t' || c = '\n' || c = '\r' || c = Char.ofNat 11 || c = Char.ofNat 12

/-- `str.strip()` on a character list: drop leading and trailing whitespace. -/
def pyStripChars (l : List Char) : List Char :=
  ((l.dropWhile isPyWs).reverse.dropWhile isPyWs).reverse

/-- `str.strip()` on a `String`. -/
def pyStripStr (s : String) : String :=
  String.mk (pyStripChars s.data)

/-- Python ASCII lowercasing of a single character (used by
`re.IGNORECASE` matching of the ASCII-only `<think>` patterns). -/
def asciiLower (c : Char) : Char :=
  if 'A' ≤ c ∧ c ≤ 'Z' then Char.ofNat (c.toNat + 32) else c

/-! ## Python values

A small model of the JSON-decoded Python values the handler inspects
(`response.json()` output).  Dictionaries are association lists with string
keys, which covers every shape a JSON body can decode to. -/

inductive PyVal where
  | none
  | bool (b : Bool)
  | int (n : Int)
  | str (s : String)
  | list (xs : List PyVal)
  | dict (kvs : List (String × PyVal))

/-- Python truthiness of a value. -/
def PyVal.truthy : PyVal → Bool
  | .none => false
  | .bool b => b
  | .int n => n != 0
  | .str s => s != ""
  | .list xs => !xs.isEmpty
  | .dict kvs => !kvs.isEmpty

/-- `v.get(key)`: succeeds on dictionaries (missing key gives `None`),
raises `AttributeError` on anything else. -/
def pyGet (v : PyVal) (key : String) : Except Unit PyVal :=
  match v with
  | .dict kvs =>
    match kvs.lookup key with
    | some w => .ok w
    | Option.none => .ok .none
  | _ => .error ()

/-- `v.get(key, default)`: like `pyGet` but with an explicit default. -/
def pyGetD (v : PyVal) (key : String) (dflt : PyVal) : Except Unit PyVal :=
  match v with
  | .dict kvs =>
    match kvs.lookup key with
    | some w => .ok w
    | Option.none => .ok dflt
  | _ => .error ()

/-- `v[0]`: first element of a list, first character of a string; raises
(`IndexError` / `KeyError` / `TypeError`) in every other case. -/
def pyIndexZero (v : PyVal) : Except Unit PyVal :=
  match v with
  | .list (x :: _) => .ok x
  | .list [] => .error ()
  | .str s =>
    match s.data with
    | c :: _ => .ok (.str (String.mk [c]))
    | [] => .error ()
  | _ => .error ()

/-! ## base64 (Python `base64.b64encode` / `base64.b64decode`)

Bytes are natural numbers below 256.  `b64decode` is modelled for canonical
input: characters outside the alphabet are discarded first (CPython's
`validate=False` behaviour), then well-padded quadruples are decoded;
CPython is laxer on some degenerate paddings that no claim exercises. -/

/-- The standard base64 alphabet, as sextet-to-character. -/
def encChar (n : Nat) : Char :=
  if n < 26 then Char.ofNat (65 + n)
  else if n < 52 then Char.ofNat (97 + (n - 26))
  else if n < 62 then Char.ofNat (48 + (n - 52))
  else if n = 62 then '+' else '/'

/-- Character-to-sextet; `none` for characters outside the alphabet. -/
def decChar (c : Char) : Option Nat :=
  if 'A' ≤ c ∧ c ≤ 'Z' then some (c.toNat - 65)
  else if 'a' ≤ c ∧ c ≤ 'z' then some (c.toNat - 97 + 26)
  else if '0' ≤ c ∧ c ≤ '9' then some (c.toNat - 48 + 52)
  else if c = '+' then some 62
  else if c = '/' then some 63
  else Option.none

def isB64Char (c : Char) : Bool := (decChar c).isSome

/-- `base64.b64encode` on a byte list, producing the character list. -/
def b64Encode : List Nat → List Char
  | [] => []
  | [a] => [encChar (a / 4), encChar (a % 4 * 16), '=', '=']
  | [a, b] => [encChar (a / 4), encChar (a % 4 * 16 + b / 16), encChar (b % 16 * 4), '=']
  | a :: b :: c :: rest =>
    encChar (a / 4) :: encChar (a % 4 * 16 + b / 16) ::
    encChar (b % 16 * 4 + c / 64) :: encChar (c % 64) :: b64Encode rest

/-- Decode a list of base64 quadruples (padding allowed only in the final
quadruple, which is where canonical encodings carry it). -/
def quadDecode : List Char → Option (List Nat)
  | [] => some []
  | c1 :: c2 :: c3 :: c4 :: rest =>
    match decChar c1, decChar c2 with
    | some n1, some n2 =>
      if rest = [] ∧ c3 = '=' ∧ c4 = '=' then
        some [n1 * 4 + n2 / 16]
      else
        match decChar c3 with
        | some n3 =>
          if rest = [] ∧ c4 = '=' then
            some [n1 * 4 + n2 / 16, n2 % 16 * 16 + n3 / 4]
          else
            match decChar c4, quadDecode rest with
            | some n4, some bs =>
              some ((n1 * 4 + n2 / 16) :: (n2 % 16 * 16 + n3 / 4) ::
                    (n3 % 4 * 64 + n4) :: bs)
            | _, _ => Option.none
        | Option.none => Option.none
    | _, _ => Option.none
  | _ => Option.none

/-- `base64.b64decode` (non-strict): discard foreign characters, then decode. -/
def b64DecodeChars (l : List Char) : Option (List Nat) :=
  quadDecode (l.filter (fun c => isB64Char c || c = '='))

/-- Encoded form as a `String`. -/
def b64String (B : List Nat) : String := String.mk (b64Encode B)

theorem decChar_encChar {n : Nat} (h : n < 64) : decChar (encChar n) = some n := by
  interval_cases n <;> decide

theorem encChar_ne_eq {n : Nat} (h : n < 64) : (encChar n = '=') = False := by
  interval_cases n <;> decide

theorem isB64Char_encChar {n : Nat} (h : n < 64) : isB64Char (encChar n) = true := by
  interval_cases n <;> decide

/-- Every character of an encoding survives the pre-decode filter. -/
theorem filter_b64Encode (B : List Nat) (h : ∀ b ∈ B, b < 256) :
    (b64Encode B).filter (fun c => isB64Char c || c = '=') = b64Encode B := by
  induction B using b64Encode.induct with
  | case1 => simp [b64Encode]
  | case2 a =>
    have ha : a < 256 := h a (by simp)
    simp [b64Encode, List.filter,
      isB64Char_encChar (show a / 4 < 64 by omega),
      isB64Char_encChar (show a % 4 * 16 < 64 by omega)]
  | case3 a b =>
    have ha : a < 256 := h a (by simp)
    have hb : b < 256 := h b (by simp)
    simp [b64Encode, List.filter,
      isB64Char_encChar (show a / 4 < 64 by omega),
      isB64Char_encChar (show a % 4 * 16 + b / 16 < 64 by omega),
      isB64Char_encChar (show b % 16 * 4 < 64 by omega)]
  | case4 a b c rest ih =>
    have ha : a < 256 := h a (by simp)
    have hb : b < 256 := h b (by simp)
    have hc : c < 256 := h c (by simp)
    have ihr := ih (fun x hx => h x (by simp [hx]))
    simp only [b64Encode, List.filter,
      isB64Char_encChar (show a / 4 < 64 by omega),
      isB64Char_encChar (show a % 4 * 16 + b / 16 < 64 by omega),
      isB64Char_encChar (show b % 16 * 4 + c / 64 < 64 by omega),
      isB64Char_encChar (show c % 64 < 64 by omega), Bool.true_or]
    simpa using ihr

/-- `b64Encode` returns `[]` only on `[]`. -/
theorem b64Encode_eq_nil_iff (B : List Nat) : b64Encode B = [] ↔ B = [] := by
  cases B with
  | nil => simp [b64Encode]
  | cons a rest =>
    cases rest with
    | nil => simp [b64Encode]
    | cons b rest2 =>
      cases rest2 <;> simp [b64Encode]

/-- Round trip at the quadruple level: decoding a canonical encoding
recovers the original bytes. -/
theorem quadDecode_b64Encode (B : List Nat) (h : ∀ b ∈ B, b < 256) :
    quadDecode (b64Encode B) = some B := by
  induction B using b64Encode.induct with
  | case1 => simp [b64Encode, quadDecode]
  | case2 a =>
    have ha : a < 256 := h a (by simp)
    have h1 : a / 4 < 64 := by omega
    have h2 : a % 4 * 16 < 64 := by omega
    simp [b64Encode, quadDecode, decChar_encChar h1, decChar_encChar h2]
    omega
  | case3 a b =>
    have ha : a < 256 := h a (by simp)
    have hb : b < 256 := h b (by simp)
    have h1 : a / 4 < 64 := by omega
    have h2 : a % 4 * 16 + b / 16 < 64 := by omega
    have h3 : b % 16 * 4 < 64 := by omega
    simp [b64Encode, quadDecode, decChar_encChar h1, decChar_encChar h2,
      decChar_encChar h3, encChar_ne_eq h3]
    omega
  | case4 a b c rest ih =>
    have ha : a < 256 := h a (by simp)
    have hb : b < 256 := h b (by simp)
    have hc : c < 256 := h c (by simp)
    have ihr := ih (fun x hx => h x (by simp [hx]))
    have h1 : a / 4 < 64 := by omega
    have h2 : a % 4 * 16 + b / 16 < 64 := by omega
    have h3 : b % 16 * 4 + c / 64 < 64 := by omega
    have h4 : c % 64 < 64 := by omega
    by_cases hrest : rest = []
    · subst hrest
      simp [b64Encode, quadDecode, decChar_encChar h1, decChar_encChar h2,
        decChar_encChar h3, decChar_encChar h4, encChar_ne_eq h3, encChar_ne_eq h4]
      omega
    · have hne : b64Encode rest ≠ [] := by
        simpa [b64Encode_eq_nil_iff] using hrest
      simp only [b64Encode, quadDecode, decChar_encChar h1, decChar_encChar h2,
        decChar_encChar h3, decChar_encChar h4]
      rw [if_neg (by simp [hne]), if_neg (by simp [hne]), ihr]
      simp only [Option.some.injEq, List.cons.injEq, and_true]
      omega

/-- Full round trip through Python's `b64decode` model. -/
theorem b64Decode_b64Encode (B : List Nat) (h : ∀ b ∈ B, b < 256) :
    b64DecodeChars (b64Encode B) = some B := by
  unfold b64DecodeChars
  rw [filter_b64Encode B h, quadDecode_b64Encode B h]

/-! ## `HistoryManager` (src/__init__.py, lines 70–93)

`HistoryEntry` is the dataclass declared in `src/__init__.py` (the separate
`src/models.py` dataclass additionally carries `images` and is modelled
below as `HistoryEntryM`).  The per-session `deque(maxlen=limit)` becomes a
list that keeps its last `limit` elements; the `_store` dict becomes an
association list. -/

structure HistoryEntry where
  speaker : String
  content : String
  is_bot : Bool := false
deriving DecidableEq, Repr

/-- `deque(maxlen=limit).append`: append, evicting from the left once the
length would exceed `limit`. -/
def boundedAppend (limit : Nat) (h : List HistoryEntry) (e : HistoryEntry) :
    List HistoryEntry :=
  let h2 := h ++ [e]
  h2.drop (h2.length - limit)

/-- Set a key in an association list (insert at the end when absent, like a
Python dict assignment). -/
def assocSet (k : String) (v : List HistoryEntry) :
    List (String × List HistoryEntry) → List (String × List HistoryEntry)
  | [] => [(k, v)]
  | (k', v') :: rest => if k' = k then (k, v) :: rest else (k', v') :: assocSet k v rest

structure HistoryManager where
  limit : Nat
  store : List (String × List HistoryEntry)
deriving DecidableEq, Repr

/-- `HistoryManager(limit)` constructor. -/
def mkHistoryManager (limit : Nat) : HistoryManager := ⟨limit, []⟩

/-- `HistoryManager.snapshot`: `list(history)` for a known, non-empty
session; `[]` otherwise (`if not history`). -/
def HistoryManager.snapshot (m : HistoryManager) (sessionId : String) :
    List HistoryEntry :=
  match m.store.lookup sessionId with
  | Option.none => []
  | some h => if h.isEmpty then [] else h

/-- `HistoryManager.append`: lazily create the bounded deque, then append. -/
def HistoryManager.append (m : HistoryManager) (sessionId : String)
    (e : HistoryEntry) : HistoryManager :=
  match m.store.lookup sessionId with
  | Option.none => { m with store := assocSet sessionId (boundedAppend m.limit [] e) m.store }
  | some h => { m with store := assocSet sessionId (boundedAppend m.limit h e) m.store }

/-- The last `n` elements of a list. -/
def lastN (n : Nat) (l : List α) : List α := l.drop (l.length - n)

theorem boundedAppend_lastN (C : Nat) (hC : 1 ≤ C) (es : List HistoryEntry)
    (e : HistoryEntry) :
    boundedAppend C (lastN C es) e = lastN C (es ++ [e]) := by
  unfold boundedAppend lastN
  simp only [List.length_append, List.length_drop, List.length_cons,
    List.length_nil]
  by_cases hcase : es.length + 1 ≤ C
  · rw [show es.length - (es.length - C) + 1 - C = 0 by omega,
      show es.length + 1 - C = 0 by omega,
      show es.length - C = 0 by omega]
    simp
  · rw [List.drop_append_eq_append_drop, List.drop_append_eq_append_drop]
    simp only [List.length_drop]
    rw [List.drop_drop]
    rw [show es.length - (es.length - C) + 1 - C = 1 by omega,
      show es.length - C + 1 = es.length + 1 - C by omega,
      show (1 - (es.length - (es.length - C))) = 0 by omega,
      show es.length + (0 + 1) - C - es.length = 0 by omega,
      show es.length + (0 + 1) - C = es.length + 1 - C by omega]

theorem append_limit (m : HistoryManager) (sid : String) (e : HistoryEntry) :
    (m.append sid e).limit = m.limit := by
  unfold HistoryManager.append
  cases m.store.lookup sid <;> rfl

theorem fold_append_limit (sid : String) (es : List HistoryEntry)
    (m : HistoryManager) :
    (es.foldl (fun m e => m.append sid e) m).limit = m.limit := by
  induction es generalizing m with
  | nil => rfl
  | cons e es ih => rw [List.foldl_cons, ih, append_limit]

/-- Store contents after folding `append` for one session over a fresh
manager: exactly one binding, holding the last `C` appended entries. -/
theorem fold_append_store (C : Nat) (hC : 1 ≤ C) (sid : String)
    (es : List HistoryEntry) :
    (es.foldl (fun m e => m.append sid e) (mkHistoryManager C)).store =
      if es = [] then [] else [(sid, lastN C es)] := by
  induction es using List.reverseRecOn with
  | nil => rfl
  | append_singleton es e ih =>
    rw [List.foldl_append, List.foldl_cons, List.foldl_nil]
    by_cases hes : es = []
    · subst hes
      simp [HistoryManager.append, mkHistoryManager, HistoryManager.snapshot,
        List.lookup, assocSet, boundedAppend, lastN]
    · have hlook : ((es.foldl (fun m e => m.append sid e)
          (mkHistoryManager C)).store).lookup sid = some (lastN C es) := by
        rw [ih]
        simp [hes, List.lookup]
      have hlim : (es.foldl (fun m e => m.append sid e)
          (mkHistoryManager C)).limit = C :=
        fold_append_limit sid es (mkHistoryManager C)
      rw [if_neg hes] at ih
      generalize hMdef : (es.foldl (fun m e => m.append sid e)
          (mkHistoryManager C)) = M at ih hlook hlim ⊢
      unfold HistoryManager.append
      rw [hlook, hlim, ih]
      simp [assocSet, boundedAppend_lastN C hC es e]

/-! ## Plugin system (src/plugin_system.py)

`LLMRequestPayload` / `LLMResponsePayload` are the dataclasses passed
through the hook pipeline; `HistoryEntryM` is the dataclass from
`src/models.py` they refer to.  A `SimpleGPTPlugin` is its two overridable
hooks (identity by default) plus the declared `priority`.  `PluginManager`
keeps `(priority, plugin)` pairs; Python's stable `list.sort(reverse=True)`
is modelled by the stable insertion sort `List.insertionSort` under the
descending-priority relation `prioGE` (all stable sorts of the same list
under the same key order agree). -/

structure HistoryEntryM where
  speaker : String
  content : String
  is_bot : Bool := false
  images : List String := []
deriving DecidableEq, Repr

structure LLMRequestPayload where
  prompt : String
  history : List HistoryEntryM := []
  sender : String := ""
  latestMessage : String := ""
  images : List String := []
  extra : List (String × PyVal) := []

structure LLMResponsePayload where
  content : String
  request : LLMRequestPayload
  extra : List (String × PyVal) := []

structure SimpleGPTPlugin where
  priority : Int := 0
  before_llm_request : LLMRequestPayload → LLMRequestPayload := id
  after_llm_response : LLMResponsePayload → LLMResponsePayload := id

/-- Descending priority order on registered `(priority, plugin)` pairs. -/
def prioGE (p q : Int × SimpleGPTPlugin) : Prop := q.1 ≤ p.1

instance : DecidableRel prioGE := fun p q => inferInstanceAs (Decidable (q.1 ≤ p.1))

instance : IsTotal (Int × SimpleGPTPlugin) prioGE :=
  ⟨fun p q => le_total q.1 p.1⟩

instance : IsTrans (Int × SimpleGPTPlugin) prioGE :=
  ⟨fun _ _ _ h1 h2 => le_trans h2 h1⟩

structure PluginManager where
  plugins : List (Int × SimpleGPTPlugin) := []

/-- `PluginManager.register`: append the pair, then re-sort (stable,
descending by priority); default priority is the plugin's own attribute. -/
def PluginManager.register (m : PluginManager) (plugin : SimpleGPTPlugin)
    (priority : Option Int) : PluginManager :=
  ⟨List.insertionSort prioGE (m.plugins ++ [(priority.getD plugin.priority, plugin)])⟩

/-- `run_before_llm_request`: fold the payload through the before-hooks in
pipeline order. -/
def PluginManager.run_before_llm_request (m : PluginManager)
    (payload : LLMRequestPayload) : LLMRequestPayload :=
  m.plugins.foldl (fun pl pr => pr.2.before_llm_request pl) payload

/-- `run_after_llm_response`: fold the payload through the after-hooks in
pipeline order. -/
def PluginManager.run_after_llm_response (m : PluginManager)
    (payload : LLMResponsePayload) : LLMResponsePayload :=
  m.plugins.foldl (fun pl pr => pr.2.after_llm_response pl) payload

/-- Register a sequence of `(plugin, priority?)` calls on a fresh manager. -/
def registerFold (regs : List (SimpleGPTPlugin × Option Int)) : PluginManager :=
  regs.foldl (fun m r => m.register r.1 r.2) ⟨[]⟩

/-- The effective `(priority, plugin)` pair of one registration call. -/
def effPair (r : SimpleGPTPlugin × Option Int) : Int × SimpleGPTPlugin :=
  (r.2.getD r.1.priority, r.1)

theorem pairwise_prioGE_of_all_eq {k : Int} {c : List (Int × SimpleGPTPlugin)}
    (h : ∀ x ∈ c, x.1 = k) : c.Pairwise prioGE := by
  induction c with
  | nil => exact List.Pairwise.nil
  | cons a c ih =>
    refine List.Pairwise.cons (fun b hb => ?_) (ih fun x hx => h x (List.mem_cons_of_mem a hx))
    unfold prioGE
    rw [h a (List.mem_cons_self a c), h b (List.mem_cons_of_mem a hb)]

/-- Stability of the sort, phrased through filters: the subsequence at any
fixed priority is untouched. -/
theorem insertionSort_filter_eq (l : List (Int × SimpleGPTPlugin)) (k : Int) :
    (List.insertionSort prioGE l).filter (fun pr => pr.1 = k) =
      l.filter (fun pr => pr.1 = k) := by
  set p : Int × SimpleGPTPlugin → Bool := fun pr => pr.1 = k with hp
  have hall : ∀ x ∈ l.filter p, x.1 = k := by
    intro x hx
    have := List.of_mem_filter hx
    simpa [hp] using this
  have hc : (l.filter p).Pairwise prioGE := pairwise_prioGE_of_all_eq hall
  have hsub : List.Sublist (l.filter p) (List.insertionSort prioGE l) :=
    List.sublist_insertionSort hc (List.filter_sublist l)
  have hsub2 : List.Sublist (l.filter p) ((List.insertionSort prioGE l).filter p) := by
    have h2 := hsub.filter p
    rwa [List.filter_filter, show (fun a => p a && p a) = p by funext a; simp] at h2
  have hperm : List.Perm ((List.insertionSort prioGE l).filter p) (l.filter p) :=
    (List.perm_insertionSort prioGE l).filter p
  exact (hsub2.eq_of_length hperm.length_eq.symm).symm

/-- After any registration sequence, the pipeline is sorted by descending
priority and keeps every equal-priority group in registration order.
(Helper; the claim theorem wraps it together with a concrete ordering run.) -/
theorem registerFold_sorted_stable (regs : List (SimpleGPTPlugin × Option Int)) :
    (registerFold regs).plugins.Pairwise prioGE ∧
      ∀ k : Int, (registerFold regs).plugins.filter (fun pr => pr.1 = k) =
        (regs.map effPair).filter (fun pr => pr.1 = k) := by
  induction regs using List.reverseRecOn with
  | nil => exact ⟨List.Pairwise.nil, fun _ => rfl⟩
  | append_singleton regs r ih =>
    have hfold : registerFold (regs ++ [r]) =
        (registerFold regs).register r.1 r.2 := by
      unfold registerFold
      rw [List.foldl_append, List.foldl_cons, List.foldl_nil]
    constructor
    · rw [hfold]
      exact List.sorted_insertionSort prioGE _
    · intro k
      rw [hfold]
      unfold PluginManager.register
      show (List.insertionSort prioGE _).filter _ = _
      rw [insertionSort_filter_eq, List.filter_append, ih.2 k, List.map_append,
        List.filter_append]
      rfl

/-! ## `RemoveThinkTagPlugin` (src/plugins/remove_think.py)

`re.sub(r"<think>.*?</think>", "", content, flags=DOTALL|IGNORECASE)` is
modelled by `stripThink`: repeatedly find the first (case-insensitive)
`<think>`, then the first `</think>` after it, and delete through it; if
the first `<think>` has no closing tag, no later one has either, so the
text is returned unchanged — exactly the regex scan.  The recursion is
bounded by the string length (each removal deletes at least 15
characters), expressed with structural fuel `stripThinkF` so that the
function evaluates by `decide`; `stripThinkF_fuel` shows the fuel is
irrelevant once it covers the length. -/

def openTag : List Char := ['<', 't', 'h', 'i', 'n', 'k', '>']

def closeTag : List Char := ['<', '/', 't', 'h', 'i', 'n', 'k', '>']

/-- The fixed debug marker prepended by `after_llm_response`:
`"<think>232323232323</think>\n"`. -/
def markerChars : List Char :=
  openTag ++ ['2', '3', '2', '3', '2', '3', '2', '3', '2', '3', '2', '3'] ++
    closeTag ++ ['\n']

/-- Case-insensitive match of `pat` (itself lowercase) at the head of `s`. -/
def matchesCI (pat s : List Char) : Bool :=
  pat == (s.take pat.length).map asciiLower

/-- First case-insensitive occurrence of `pat` in `s`:
`some (before, after)` where the occurrence sits between the two parts. -/
def splitOnTag (pat : List Char) : List Char → Option (List Char × List Char)
  | [] => Option.none
  | c :: rest =>
    if matchesCI pat (c :: rest) then some ([], (c :: rest).drop pat.length)
    else
      match splitOnTag pat rest with
      | some (pre, post) => some (c :: pre, post)
      | Option.none => Option.none

def stripThinkF : Nat → List Char → List Char
  | 0, s => s
  | fuel + 1, s =>
    match splitOnTag openTag s with
    | Option.none => s
    | some (pre, rest1) =>
      match splitOnTag closeTag rest1 with
      | Option.none => s
      | some (_, rest2) => pre ++ stripThinkF fuel rest2

/-- The regex substitution removing every `<think>…</think>` segment. -/
def stripThink (s : List Char) : List Char := stripThinkF s.length s

theorem matchesCI_length_le {pat s : List Char} (h : matchesCI pat s = true) :
    pat.length ≤ s.length := by
  unfold matchesCI at h
  have he : pat = (s.take pat.length).map asciiLower := by
    exact beq_iff_eq.mp h
  have := congrArg List.length he
  simp only [List.length_map, List.length_take] at this
  omega

theorem splitOnTag_length {pat s pre post : List Char}
    (h : splitOnTag pat s = some (pre, post)) :
    s.length = pre.length + pat.length + post.length := by
  induction s generalizing pre post with
  | nil => simp [splitOnTag] at h
  | cons c rest ih =>
    unfold splitOnTag at h
    by_cases hm : matchesCI pat (c :: rest) = true
    · rw [if_pos hm] at h
      have hle : pat.length ≤ rest.length + 1 := by
        simpa using matchesCI_length_le hm
      obtain ⟨h1, h2⟩ := Prod.mk.inj (Option.some.inj h)
      subst h1
      subst h2
      simp only [List.length_nil, List.length_drop, List.length_cons]
      omega
    · rw [if_neg hm] at h
      cases hsp : splitOnTag pat rest with
      | none => rw [hsp] at h; cases h
      | some pr =>
        obtain ⟨pre2, post2⟩ := pr
        rw [hsp] at h
        obtain ⟨h1, h2⟩ := Prod.mk.inj (Option.some.inj h)
        subst h2
        have := ih hsp
        subst h1
        simp only [List.length_cons]
        omega

theorem stripThinkF_nil (f : Nat) : stripThinkF f [] = [] := by
  cases f <;> simp [stripThinkF, splitOnTag]

/-- Fuel irrelevance: any fuel at least the string length gives the same
result. -/
theorem stripThinkF_fuel {f1 f2 : Nat} (s : List Char)
    (h1 : s.length ≤ f1) (h2 : s.length ≤ f2) :
    stripThinkF f1 s = stripThinkF f2 s := by
  induction f1 generalizing s f2 with
  | zero =>
    have : s = [] := List.length_eq_zero.mp (Nat.le_zero.mp h1)
    subst this
    rw [stripThinkF_nil, stripThinkF_nil]
  | succ g ih =>
    cases f2 with
    | zero =>
      have : s = [] := List.length_eq_zero.mp (Nat.le_zero.mp h2)
      subst this
      rw [stripThinkF_nil, stripThinkF_nil]
    | succ k =>
      show stripThinkF (g + 1) s = stripThinkF (k + 1) s
      unfold stripThinkF
      cases hop : splitOnTag openTag s with
      | none => rfl
      | some pr1 =>
        obtain ⟨pre, rest1⟩ := pr1
        cases hcl : splitOnTag closeTag rest1 with
        | none => simp only [hcl]
        | some pr2 =>
          obtain ⟨q, rest2⟩ := pr2
          have hL1 := splitOnTag_length hop
          have hL2 := splitOnTag_length hcl
          simp only [openTag, closeTag, List.length_cons, List.length_nil] at hL1 hL2
          have hlen : rest2.length + 15 ≤ s.length := by omega
          simp only [hcl]
          rw [@ih k rest2 (by omega) (by omega)]

theorem matchesCI_cons_false {p c : Char} {pt s : List Char}
    (h : asciiLower c ≠ p) : matchesCI (p :: pt) (c :: s) = false := by
  unfold matchesCI
  rw [List.length_cons, List.take_succ_cons, List.map_cons]
  refine beq_eq_false_iff_ne.mpr ?_
  intro heq
  exact h (List.cons.inj heq).1.symm

theorem matchesCI_append {pat l : List Char} (s : List Char)
    (h : l.map asciiLower = pat) (hlen : l.length = pat.length) :
    matchesCI pat (l ++ s) = true := by
  unfold matchesCI
  rw [← hlen, List.take_left, h]
  exact beq_self_eq_true pat

theorem splitOnTag_cons_of_false {pat : List Char} {c : Char} {s : List Char}
    (h : matchesCI pat (c :: s) = false) :
    splitOnTag pat (c :: s) =
      (splitOnTag pat s).map (fun pr => (c :: pr.1, pr.2)) := by
  conv_lhs => unfold splitOnTag
  rw [h]
  simp only [Bool.false_eq_true, if_false]
  cases hsp : splitOnTag pat s with
  | none => simp [hsp]
  | some pr => cases pr; simp [hsp]

theorem splitOnTag_eq_of_matches {pat s : List Char} (hs : s ≠ [])
    (h : matchesCI pat s = true) :
    splitOnTag pat s = some ([], s.drop pat.length) := by
  cases s with
  | nil => cases hs rfl
  | cons c rest =>
    unfold splitOnTag
    rw [h]
    simp

theorem matchesCI_open_cons_false {c : Char} {s : List Char}
    (h : asciiLower c ≠ '<') : matchesCI openTag (c :: s) = false :=
  matchesCI_cons_false h

theorem matchesCI_close_cons_false {c : Char} {s : List Char}
    (h : asciiLower c ≠ '<') : matchesCI closeTag (c :: s) = false :=
  matchesCI_cons_false h

theorem matchesCI_open_self (s : List Char) :
    matchesCI openTag (openTag ++ s) = true :=
  matchesCI_append s (by decide) rfl

theorem matchesCI_close_self (s : List Char) :
    matchesCI closeTag (closeTag ++ s) = true :=
  matchesCI_append s (by decide) rfl

theorem stripThinkF_succ (f : Nat) (s : List Char) :
    stripThinkF (f + 1) s =
      match splitOnTag openTag s with
      | Option.none => s
      | some (pre, rest1) =>
        match splitOnTag closeTag rest1 with
        | Option.none => s
        | some (_, rest2) => pre ++ stripThinkF f rest2 := rfl

theorem stripThinkF_of_no_open {f : Nat} {s : List Char}
    (h : splitOnTag openTag s = Option.none) : stripThinkF f s = s := by
  cases f with
  | zero => rfl
  | succ g => rw [stripThinkF_succ, h]

/-- A head character that cannot begin `⟨think⟩` passes through untouched
(with any sufficient fuel). -/
theorem stripThinkF_cons {c : Char} {s : List Char} {f : Nat}
    (h : asciiLower c ≠ '<') (hf : s.length ≤ f) :
    stripThinkF (f + 1) (c :: s) = c :: stripThinkF f s := by
  rw [stripThinkF_succ, splitOnTag_cons_of_false (matchesCI_open_cons_false h)]
  cases hsp : splitOnTag openTag s with
  | none =>
    simp only [Option.map_none']
    rw [stripThinkF_of_no_open hsp]
  | some pr1 =>
    obtain ⟨pre, post⟩ := pr1
    simp only [Option.map_some']
    have hsne : s ≠ [] := by
      intro he
      subst he
      simp [splitOnTag] at hsp
    cases f with
    | zero =>
      have : s = [] := List.length_eq_zero.mp (Nat.le_zero.mp hf)
      exact absurd this hsne
    | succ g =>
      rw [stripThinkF_succ g s, hsp]
      cases hcl : splitOnTag closeTag post with
      | none => simp only [hcl]
      | some pr2 =>
        obtain ⟨q, rest2⟩ := pr2
        simp only [hcl, List.cons_append]
        have hL1 := splitOnTag_length hsp
        have hL2 := splitOnTag_length hcl
        simp only [openTag, closeTag, List.length_cons, List.length_nil] at hL1 hL2
        rw [@stripThinkF_fuel _ g rest2 (by omega) (by omega)]

theorem stripThink_cons {c : Char} (s : List Char) (h : asciiLower c ≠ '<') :
    stripThink (c :: s) = c :: stripThink s :=
  stripThinkF_cons h (Nat.le_refl _)

theorem splitOnTag_marker_open (s : List Char) :
    splitOnTag openTag (markerChars ++ s) =
      some ([], ['2', '3', '2', '3', '2', '3', '2', '3', '2', '3', '2', '3'] ++
        (closeTag ++ '\n' :: s)) := by
  have hassoc : markerChars ++ s =
      openTag ++ (['2', '3', '2', '3', '2', '3', '2', '3', '2', '3', '2', '3'] ++
        (closeTag ++ '\n' :: s)) := by
    simp [markerChars, List.append_assoc]
  rw [hassoc, splitOnTag_eq_of_matches (by simp [openTag]) (matchesCI_open_self _),
    List.drop_left]

theorem splitOnTag_marker_close (s : List Char) :
    splitOnTag closeTag
        (['2', '3', '2', '3', '2', '3', '2', '3', '2', '3', '2', '3'] ++
          (closeTag ++ '\n' :: s)) =
      some (['2', '3', '2', '3', '2', '3', '2', '3', '2', '3', '2', '3'],
        '\n' :: s) := by
  simp only [List.cons_append, List.nil_append]
  rw [splitOnTag_cons_of_false (matchesCI_close_cons_false (by decide)),
    splitOnTag_cons_of_false (matchesCI_close_cons_false (by decide)),
    splitOnTag_cons_of_false (matchesCI_close_cons_false (by decide)),
    splitOnTag_cons_of_false (matchesCI_close_cons_false (by decide)),
    splitOnTag_cons_of_false (matchesCI_close_cons_false (by decide)),
    splitOnTag_cons_of_false (matchesCI_close_cons_false (by decide)),
    splitOnTag_cons_of_false (matchesCI_close_cons_false (by decide)),
    splitOnTag_cons_of_false (matchesCI_close_cons_false (by decide)),
    splitOnTag_cons_of_false (matchesCI_close_cons_false (by decide)),
    splitOnTag_cons_of_false (matchesCI_close_cons_false (by decide)),
    splitOnTag_cons_of_false (matchesCI_close_cons_false (by decide)),
    splitOnTag_cons_of_false (matchesCI_close_cons_false (by decide)),
    splitOnTag_eq_of_matches (by simp [closeTag]) (matchesCI_close_self _),
    List.drop_left]
  simp

/-- Prepending the fixed marker and stripping leaves exactly the marker's
trailing newline, then strips the rest. -/
theorem stripThink_marker (s : List Char) :
    stripThink (markerChars ++ s) = '\n' :: stripThink s := by
  unfold stripThink
  rw [show (markerChars ++ s).length = (s.length + 27) + 1 from by
    simp [markerChars, openTag, closeTag]]
  rw [stripThinkF_succ, splitOnTag_marker_open s]
  simp only [splitOnTag_marker_close s, List.nil_append]
  rw [show s.length + 27 = (s.length + 26) + 1 from by omega,
    stripThinkF_cons (by decide) (by omega),
    @stripThinkF_fuel _ s.length s (by omega) (by omega)]

theorem pyStripChars_cons_nl (l : List Char) :
    pyStripChars ('\n' :: l) = pyStripChars l := by
  unfold pyStripChars
  rw [List.dropWhile_cons, if_pos (show isPyWs '\n' = true from by decide)]

/-- The content transformation of `RemoveThinkTagPlugin.after_llm_response`:
prepend the fixed marker, strip `<think>` segments, strip whitespace; keep
the marker-prefixed text when the cleaned text is empty
(`payload.content = cleaned or payload.content`). -/
def removeThinkContent (content : String) : String :=
  let c2 : List Char := markerChars ++ content.data
  let cleaned : List Char := pyStripChars (stripThink c2)
  String.mk (if cleaned.isEmpty then c2 else cleaned)

def RemoveThinkTagPlugin : SimpleGPTPlugin where
  priority := 100
  after_llm_response := fun payload =>
    { payload with content := removeThinkContent payload.content }

/-- The plugin registration performed at import time by
`src/plugins/remove_think.py` (`register_simple_gpt_plugin(RemoveThinkTagPlugin())`). -/
def pluginManagerLoaded : PluginManager :=
  PluginManager.register ⟨[]⟩ RemoveThinkTagPlugin Option.none

/-- The marker injection is invisible to cleaning: the cleaned text equals
the cleaned original content. -/
theorem removeThink_cleaned (content : String) :
    pyStripChars (stripThink (markerChars ++ content.data)) =
      pyStripChars (stripThink content.data) := by
  rw [stripThink_marker, pyStripChars_cons_nl]

/-! ## Orchestrator (src/__init__.py)

The pydantic `Config` is a plain record.  External effects are oracles:

* `fmt` models `str.format` on the prompt template;
* `draw` is the value of `random.random()`;
* `remote` is the outcome of the chat-completion HTTP call —
  `none` for any transport error (all caught and turned into `None` by
  `call_large_language_model`), `some data` for a 2xx response whose JSON
  body decoded to `data`.

A Python exception escaping the handler (possible while digging into a
type-mismatched response body) is `Except.error ()`; the result carries
the list of texts sent via `matcher.send` and the updated history. -/

structure Config where
  simple_gpt_api_key : String := ""
  simple_gpt_model : String := "gpt-4o-mini"
  simple_gpt_api_base : String := "https://api.openai.com/v1"
  simple_gpt_prompt_template : String := ""
  simple_gpt_history_limit : Nat := 20
  simple_gpt_reply_probability : ℚ := 0
  simple_gpt_failure_reply : String := "呜呜，暂时无法连接到大模型，请稍后再试呀。"

/-- `generate_prompt`'s `history_lines` computation. -/
def historyLines (history : List HistoryEntry) : String :=
  if history.isEmpty then "（暂无聊天记录）"
  else String.intercalate "\n" (history.map (fun e => e.speaker ++ "：" ++ e.content))

/-- `generate_prompt`, with `str.format` as the oracle `fmt`. -/
def generate_prompt (fmt : String → String → String → String → String)
    (cfg : Config) (history : List HistoryEntry) (sender latest : String) : String :=
  fmt cfg.simple_gpt_prompt_template (historyLines history) sender latest

/-- Response-body parsing of `call_large_language_model`
(`src/__init__.py`, lines 175–184): each step that would raise in Python
(attribute access / indexing on a value of the wrong type) propagates as
`Except.error`. -/
def parseLLMContent (data : PyVal) : Except Unit (Option String) :=
  match pyGet data "choices" with
  | .error e => .error e
  | .ok choices =>
    if choices.truthy = false then .ok Option.none
    else
      match pyIndexZero choices with
      | .error e => .error e
      | .ok first =>
        match pyGetD first "message" (PyVal.dict []) with
        | .error e => .error e
        | .ok message =>
          match pyGet message "content" with
          | .error e => .error e
          | .ok content =>
            if content.truthy = false then .ok Option.none
            else
              match content with
              | .str s => .ok (some (pyStripStr s))
              | _ => .error ()

/-- `call_large_language_model`: skip without a credential, `None` on any
transport error, otherwise parse the body. -/
def call_large_language_model (cfg : Config) (prompt : String)
    (remote : Option PyVal) : Except Unit (Option String) :=
  if cfg.simple_gpt_api_key = "" then .ok Option.none
  else
    match remote with
    | Option.none => .ok Option.none
    | some data => parseLLMContent data

/-- `should_reply`. -/
def should_reply (cfg : Config) (isTome : Bool) (draw : ℚ) : Bool :=
  if isTome then true
  else if cfg.simple_gpt_reply_probability ≤ 0 then false
  else decide (draw < cfg.simple_gpt_reply_probability)

/-- The per-message fields the handler reads off the nonebot event. -/
structure GroupEvent where
  isGroup : Bool := true
  userId : String
  selfId : String
  plaintext : String
  groupId : String
  card : String := ""
  nickname : String := ""
  isTome : Bool

/-- `event.sender.card or event.sender.nickname or f"用户{user_id}"`
(empty string models both `None` and `""`, which are equally falsy). -/
def displayName (ev : GroupEvent) : String :=
  if ev.card ≠ "" then ev.card
  else if ev.nickname ≠ "" then ev.nickname
  else "用户" ++ ev.userId

/-- The `reply_needed` flag after the knock-down
`if reply_needed and not event.is_tome() and not …api_key` on line 215. -/
def effectiveReplyNeeded (cfg : Config) (ev : GroupEvent) (draw : ℚ) : Bool :=
  if should_reply cfg ev.isTome draw && !ev.isTome && cfg.simple_gpt_api_key = ""
  then false
  else should_reply cfg ev.isTome draw

/-- `plain_text` after stripping and the empty-input placeholder. -/
def plainTextOf (ev : GroupEvent) : String :=
  if pyStripStr ev.plaintext = "" then "（无文字内容）" else pyStripStr ev.plaintext

/-- `reply_text = generated or …failure_reply` (`or` treats `None` and the
empty string alike). -/
def replyTextOf (cfg : Config) : Option String → String
  | some s => if s = "" then cfg.simple_gpt_failure_reply else s
  | Option.none => cfg.simple_gpt_failure_reply

/-- The `@message_matcher.handle()` coroutine (`src/__init__.py`,
lines 198–241): returns the texts sent and the updated history. -/
def handler (fmt : String → String → String → String → String) (cfg : Config)
    (ev : GroupEvent) (draw : ℚ) (remote : Option PyVal)
    (hist : HistoryManager) : Except Unit (List String × HistoryManager) := do
  if ev.isGroup = false then
    return ([], hist)
  else if ev.userId = ev.selfId then
    return ([], hist)
  else
    let plainText := plainTextOf ev
    let sessionId := "group_" ++ ev.groupId
    let name := displayName ev
    let historyBefore := hist.snapshot sessionId
    let replyNeeded := effectiveReplyNeeded cfg ev draw
    if replyNeeded then
      let prompt := generate_prompt fmt cfg historyBefore name plainText
      let generated ← call_large_language_model cfg prompt remote
      let replyText := replyTextOf cfg generated
      let hist1 := hist.append sessionId ⟨name, plainText, false⟩
      let hist2 :=
        if replyText ≠ "" then hist1.append sessionId ⟨"机器人", replyText, true⟩
        else hist1
      return ([replyText], hist2)
    else
      return ([], hist.append sessionId ⟨name, plainText, false⟩)

/-! ## Image normalization (src/image_utils.py)

The external world is an oracle record `PyEnv`: filesystem existence and
`read_bytes` (`none` models a raised read error), the HTTP GET
(`none` models any network failure or non-2xx status), `imghdr.what`
sniffing and `mimetypes.guess_type`.  `urlparse` is modelled only as far
as the code uses it: scheme extraction and the path of a `file:` URL. -/

def MAX_IMAGE_BYTES : Nat := 5 * 1024 * 1024

structure PyEnv where
  fsExists : String → Bool
  fsRead : String → Option (List Nat)
  net : String → Option (List Nat × Option String)
  sniff : List Nat → Option String
  guessType : String → Option String

/-- Split at the first colon. -/
def splitFirstColon : List Char → Option (List Char × List Char)
  | [] => Option.none
  | c :: rest =>
    if c = ':' then some ([], rest)
    else (splitFirstColon rest).map (fun pr => (c :: pr.1, pr.2))

def isSchemeChar (c : Char) : Bool :=
  c.isAlpha || c.isDigit || c = '+' || c = '-' || c = '.'

/-- `urlparse(t).scheme`: the lowercased text before the first colon when
it is a valid scheme, `""` otherwise. -/
def urlScheme (t : String) : String :=
  match splitFirstColon t.data with
  | Option.none => ""
  | some (pre, _) =>
    match pre with
    | [] => ""
    | c :: _ =>
      if c.isAlpha && pre.all isSchemeChar then String.mk (pre.map asciiLower)
      else ""

/-- `urlparse(t).path` for a `file:` URL (netloc skipped after `//`). -/
def fileUrlPath (t : String) : String :=
  match splitFirstColon t.data with
  | Option.none => t
  | some (_, rest) =>
    match rest with
    | '/' :: '/' :: r2 => String.mk (r2.dropWhile (fun c => c ≠ '/'))
    | r => String.mk r

def looks_like_url (t : String) : Bool :=
  ['h', 't', 't', 'p', ':', '/', '/'].isPrefixOf t.data ||
    ['h', 't', 't', 'p', 's', ':', '/', '/'].isPrefixOf t.data

def is_local_path (env : PyEnv) (t : String) : Bool :=
  urlScheme t = "file" || env.fsExists t

/-- `_resolve_path`. -/
def resolve_path (env : PyEnv) (t : String) : Option String :=
  if urlScheme t = "file" then some (fileUrlPath t)
  else if env.fsExists t then some t
  else Option.none

/-- `_load_local_file`: resolve, read, reject oversize. -/
def load_local_file (env : PyEnv) (pathStr : String) : Option (List Nat) :=
  match resolve_path env pathStr with
  | Option.none => Option.none
  | some p =>
    match env.fsRead p with
    | Option.none => Option.none
    | some data =>
      if data.length > MAX_IMAGE_BYTES then Option.none else some data

/-- `_download_image`: bytes and content-type header on success, rejecting
oversize bodies. -/
def download_image (env : PyEnv) (url : String) :
    Option (List Nat) × Option String :=
  match env.net url with
  | Option.none => (Option.none, Option.none)
  | some (data, ct) =>
    if data.length > MAX_IMAGE_BYTES then (Option.none, Option.none)
    else (some data, ct)

def resolve_mime_sniff (env : PyEnv) (content : List Nat) : String :=
  match env.sniff content with
  | some d => if d ≠ "" then "image/" ++ d else "image/png"
  | Option.none => "image/png"

def resolve_mime_noct (env : PyEnv) (content : List Nat)
    (filename : Option String) : String :=
  match filename with
  | some f =>
    if f = "" then resolve_mime_sniff env content
    else
      match env.guessType f with
      | some g => if g ≠ "" then g else resolve_mime_sniff env content
      | Option.none => resolve_mime_sniff env content
  | Option.none => resolve_mime_sniff env content

/-- `_resolve_mime`: HTTP content type (parameters stripped), then filename
guess, then signature sniffing, then the generic fallback. -/
def resolve_mime (env : PyEnv) (content : List Nat)
    (contentType filename : Option String) : String :=
  match contentType with
  | some ct =>
    if ct = "" then resolve_mime_noct env content filename
    else String.mk (ct.data.takeWhile (fun c => c ≠ ';'))
  | Option.none => resolve_mime_noct env content filename

/-- `_build_data_url`. -/
def build_data_url (env : PyEnv) (content : List Nat)
    (contentType filename : Option String) : String :=
  "data:" ++ resolve_mime env content contentType filename ++ ";base64," ++
    String.mk (b64Encode content)

def base64Marker : List Char := ['b', 'a', 's', 'e', '6', '4', ':', '/', '/']

/-- `value.replace("base64://", "", 1)`. -/
def removeFirstSub (pat : List Char) : List Char → List Char
  | [] => []
  | c :: rest =>
    if pat.isPrefixOf (c :: rest) then (c :: rest).drop pat.length
    else c :: removeFirstSub pat rest

/-- `_decode_inline_base64` (decode failure gives `None`). -/
def decode_inline_base64 (v : String) : Option (List Nat) :=
  b64DecodeChars (removeFirstSub base64Marker v.data)

/-- One OneBot message segment, with the three fields the code reads from
`segment.data`.  `some ""` and `none` are equally falsy. -/
structure ImageSeg where
  segType : String := "image"
  url : Option String := Option.none
  file : Option String := Option.none
  path : Option String := Option.none

def optTruthy : Option String → Bool
  | some s => s ≠ ""
  | Option.none => false

/-- `_segment_to_data_url`, staged exactly like the source: the `file`
token (inline / url-like / local), then the `path` token, then the URL. -/
def segment_to_data_url (env : PyEnv) (seg : ImageSeg) : Option String :=
  let s1 : Option (List Nat) × Option String × Option String :=
    match seg.file with
    | some f =>
      if f ≠ "" then
        if base64Marker.isPrefixOf f.data then
          (decode_inline_base64 f, seg.url, some f)
        else if looks_like_url f && !(optTruthy seg.url) then
          (Option.none, some f, some f)
        else if is_local_path env f then
          (load_local_file env f, seg.url, some f)
        else (Option.none, seg.url, some f)
      else (Option.none, seg.url, Option.none)
    | Option.none => (Option.none, seg.url, Option.none)
  let s2 : Option (List Nat) × Option String :=
    match s1.1, seg.path with
    | Option.none, some p =>
      if p ≠ "" then (load_local_file env p, some p) else (s1.1, s1.2.2)
    | _, _ => (s1.1, s1.2.2)
  let s3 : Option (List Nat) × Option String :=
    match s2.1, s1.2.1 with
    | Option.none, some u =>
      if u ≠ "" then download_image env u else (s2.1, Option.none)
    | _, _ => (s2.1, Option.none)
  match s3.1 with
  | Option.none => Option.none
  | some content => some (build_data_url env content s3.2 s2.2)

/-- `extract_image_data_urls`: normalize the image segments in order,
silently dropping failures. -/
def extract_image_data_urls (env : PyEnv) (msg : List ImageSeg) : List String :=
  msg.filterMap (fun seg =>
    if seg.segType = "image" then segment_to_data_url env seg else Option.none)

/-! ## `HistoryManager` with explicit object identity

To express the copy semantics of `snapshot` (`return list(history)` /
`return []`), the same `HistoryManager` is modelled once more with Python
list objects living in a heap addressed by `Nat` refs.  `snapshot`
allocates a fresh list object; `RefHistory.mutate` is the caller mutating
a list object it holds. -/

def heapSet (h : Nat → List HistoryEntry) (r : Nat) (v : List HistoryEntry) :
    Nat → List HistoryEntry :=
  fun r' => if r' = r then v else h r'

structure RefHistory where
  limit : Nat
  nextRef : Nat
  heap : Nat → List HistoryEntry
  store : List (String × Nat)

/-- Dereferenced entries of a session (`[]` for an unknown session). -/
def RefHistory.contents (m : RefHistory) (sid : String) : List HistoryEntry :=
  match m.store.lookup sid with
  | Option.none => []
  | some r => m.heap r

/-- `snapshot`: always returns a *fresh* list object (the copy, or a fresh
empty list), leaving the store untouched. -/
def RefHistory.snapshot (m : RefHistory) (sid : String) : Nat × RefHistory :=
  let val :=
    match m.store.lookup sid with
    | Option.none => []
    | some r => if (m.heap r).isEmpty then [] else m.heap r
  (m.nextRef,
    { m with heap := heapSet m.heap m.nextRef val, nextRef := m.nextRef + 1 })

/-- `append`: in-place mutation of the session's deque, creating it on
first use. -/
def RefHistory.append (m : RefHistory) (sid : String) (e : HistoryEntry) :
    RefHistory :=
  match m.store.lookup sid with
  | some r => { m with heap := heapSet m.heap r (boundedAppend m.limit (m.heap r) e) }
  | Option.none =>
    { m with
      heap := heapSet m.heap m.nextRef (boundedAppend m.limit [] e),
      store := m.store ++ [(sid, m.nextRef)],
      nextRef := m.nextRef + 1 }

/-- A caller mutating a list object it holds a reference to. -/
def RefHistory.mutate (m : RefHistory) (r : Nat) (v : List HistoryEntry) :
    RefHistory :=
  { m with heap := heapSet m.heap r v }

/-- Every stored ref was allocated. -/
def RefHistory.WF (m : RefHistory) : Prop :=
  ∀ p ∈ m.store, p.2 < m.nextRef

/-- The list object `snapshot` hands back, dereferenced. -/
def RefHistory.snapshotValue (m : RefHistory) (sid : String) :
    List HistoryEntry :=
  ((m.snapshot sid).2).heap (m.snapshot sid).1

theorem heapSet_same (h : Nat → List HistoryEntry) (r : Nat) (v : List HistoryEntry) :
    heapSet h r v r = v := by simp [heapSet]

theorem heapSet_other (h : Nat → List HistoryEntry) {r r' : Nat} (v : List HistoryEntry)
    (hne : r' ≠ r) : heapSet h r v r' = h r' := by simp [heapSet, hne]

theorem RefHistory.snapshotValue_eq (m : RefHistory) (sid : String) :
    m.snapshotValue sid = m.contents sid := by
  unfold RefHistory.snapshotValue RefHistory.snapshot RefHistory.contents
  cases hl : m.store.lookup sid with
  | none => simp [heapSet_same]
  | some r =>
    simp only [heapSet_same]
    by_cases he : (m.heap r).isEmpty
    · rw [if_pos he, List.isEmpty_iff.mp he]
    · rw [if_neg he]

theorem RefHistory.snapshot_store (m : RefHistory) (sid : String) :
    ((m.snapshot sid).2).store = m.store := rfl

theorem lookup_mem_pairs {l : List (String × Nat)} {k : String} {v : Nat}
    (h : l.lookup k = some v) : (k, v) ∈ l := by
  induction l with
  | nil => cases h
  | cons p rest ih =>
    obtain ⟨k', v'⟩ := p
    rw [List.lookup_cons] at h
    by_cases hk : k = k'
    · subst hk
      simp only [beq_self_eq_true] at h
      rw [← Option.some.inj h]
      exact List.mem_cons_self _ _
    · rw [show (k == k') = false from by simpa using hk] at h
      exact List.mem_cons_of_mem _ (ih h)

theorem RefHistory.snapshot_contents (m : RefHistory) (hWF : m.WF)
    (sid sid' : String) :
    ((m.snapshot sid).2).contents sid' = m.contents sid' := by
  unfold RefHistory.contents RefHistory.snapshot
  simp only
  cases hl : m.store.lookup sid' with
  | none => rfl
  | some r =>
    have hr : r < m.nextRef := hWF (sid', r) (lookup_mem_pairs hl)
    exact heapSet_other m.heap _ (by omega)

theorem RefHistory.WF_snapshot (m : RefHistory) (hWF : m.WF) (sid : String) :
    ((m.snapshot sid).2).WF := by
  intro p hp
  have h1 : p.2 < m.nextRef := hWF p hp
  show p.2 < m.nextRef + 1
  omega

/-- Mutating a list object that no session binding points at (and that is
not the next allocation slot) is invisible to a subsequent `append`. -/
theorem RefHistory.mutate_invisible_append (m : RefHistory) (r : Nat)
    (hr1 : ∀ p ∈ m.store, p.2 ≠ r)
    (v : List HistoryEntry) (sid' : String) (e : HistoryEntry) (sid'' : String) :
    ((m.mutate r v).append sid' e).contents sid'' =
      (m.append sid' e).contents sid'' := by
  unfold RefHistory.mutate RefHistory.append RefHistory.contents
  simp only
  cases hl : m.store.lookup sid' with
  | some rr =>
    have hrr : rr ≠ r := hr1 (sid', rr) (lookup_mem_pairs hl)
    simp only [hl]
    cases hl2 : m.store.lookup sid'' with
    | none => rfl
    | some r2 =>
      have hr2ne : r2 ≠ r := hr1 (sid'', r2) (lookup_mem_pairs hl2)
      simp only
      by_cases h22 : r2 = rr
      · subst h22
        rw [heapSet_same, heapSet_same, heapSet_other m.heap v hrr]
      · rw [heapSet_other _ _ h22, heapSet_other _ _ h22,
          heapSet_other _ _ hr2ne]
  | none =>
    simp only [hl]
    cases hl2 : (m.store ++ [(sid', m.nextRef)]).lookup sid'' with
    | none => rfl
    | some r2 =>
      simp only
      by_cases h2n : r2 = m.nextRef
      · subst h2n
        rw [heapSet_same, heapSet_same]
      · have hmem : (sid'', r2) ∈ m.store ++ [(sid', m.nextRef)] :=
          lookup_mem_pairs hl2
        have hmem2 : (sid'', r2) ∈ m.store := by
          rcases List.mem_append.mp hmem with h | h
          · exact h
          · exfalso
            apply h2n
            simpa using congrArg Prod.snd (List.mem_singleton.mp h)
        have hr2ne : r2 ≠ r := hr1 (sid'', r2) hmem2
        rw [heapSet_other _ _ h2n, heapSet_other _ _ h2n,
          heapSet_other _ _ hr2ne]

/-- Evaluation of the handler on the reply path, for any call outcome
`.ok g`: the reply text is emitted, the user turn is recorded, and the
bot turn is recorded exactly when the reply text is non-empty. -/
theorem handler_reply (fmt : String → String → String → String → String)
    (cfg : Config) (ev : GroupEvent) (draw : ℚ) (remote : Option PyVal)
    (hist : HistoryManager) (g : Option String)
    (hG : ev.isGroup = true) (hSelf : ev.userId ≠ ev.selfId)
    (hNeed : effectiveReplyNeeded cfg ev draw = true)
    (hCall : ∀ prompt, call_large_language_model cfg prompt remote = .ok g) :
    handler fmt cfg ev draw remote hist =
      .ok ([replyTextOf cfg g],
        if replyTextOf cfg g ≠ "" then
          (hist.append ("group_" ++ ev.groupId)
            ⟨displayName ev, plainTextOf ev, false⟩).append
            ("group_" ++ ev.groupId) ⟨"机器人", replyTextOf cfg g, true⟩
        else hist.append ("group_" ++ ev.groupId)
          ⟨displayName ev, plainTextOf ev, false⟩) := by
  unfold handler
  rw [hG]
  rw [if_neg (show ¬(true = false) from by simp)]
  rw [if_neg hSelf]
  simp only [hNeed, if_pos]
  rw [hCall (generate_prompt fmt cfg
    (hist.snapshot ("group_" ++ ev.groupId)) (displayName ev) (plainTextOf ev))]
  rfl

/-- Same statement for a subsequent `snapshot` observation. -/
theorem RefHistory.mutate_invisible_snapshot (m : RefHistory) (r : Nat)
    (hr1 : ∀ p ∈ m.store, p.2 ≠ r) (v : List HistoryEntry) (sid'' : String) :
    (m.mutate r v).snapshotValue sid'' = m.snapshotValue sid'' := by
  rw [RefHistory.snapshotValue_eq, RefHistory.snapshotValue_eq]
  unfold RefHistory.mutate RefHistory.contents
  simp only
  cases hl : m.store.lookup sid'' with
  | none => rfl
  | some r2 =>
    exact heapSet_other _ _ (hr1 (sid'', r2) (lookup_mem_pairs hl))

/-! ## The claims -/

/-- C3: for every session and every sequence of N appends to a
`HistoryManager` constructed with capacity C ≥ 1, the stored sequence for
that session has length `min N C` and equals exactly the last `min N C`
appended entries, in append order, oldest first. -/
theorem C3_history_bounded (C : Nat) (hC : 1 ≤ C) (sid : String)
    (es : List HistoryEntry) :
    (es.foldl (fun m e => m.append sid e) (mkHistoryManager C)).snapshot sid =
      es.drop (es.length - C) ∧
    ((es.foldl (fun m e => m.append sid e) (mkHistoryManager C)).snapshot sid).length =
      min es.length C := by
  have hmain : (es.foldl (fun m e => m.append sid e)
      (mkHistoryManager C)).snapshot sid = es.drop (es.length - C) := by
    unfold HistoryManager.snapshot
    rw [fold_append_store C hC sid es]
    by_cases hes : es = []
    · subst hes
      simp [List.lookup]
    · rw [if_neg hes]
      have hne : lastN C es ≠ [] := by
        unfold lastN
        intro hcon
        have hlc := congrArg List.length hcon
        simp only [List.length_drop, List.length_nil] at hlc
        have hlen : es.length ≠ 0 := fun h0 => hes (List.length_eq_zero.mp h0)
        omega
      simp only [List.lookup_cons, beq_self_eq_true]
      rw [show (lastN C es).isEmpty = false from by
        cases hll : lastN C es with
        | nil => exact absurd hll hne
        | cons a t => rfl]
      simp [lastN]
  refine ⟨hmain, ?_⟩
  rw [hmain]
  simp only [List.length_drop]
  omega

/-- C3 witness. -/
theorem C3_history_bounded_witness :
    (([⟨"a", "1", false⟩, ⟨"a", "2", false⟩, ⟨"a", "3", false⟩] :
        List HistoryEntry).foldl (fun m e => m.append "g" e)
        (mkHistoryManager 2)).snapshot "g" =
      [⟨"a", "2", false⟩, ⟨"a", "3", false⟩] := by
  have h := (C3_history_bounded 2 (by norm_num) "g"
    [⟨"a", "1", false⟩, ⟨"a", "2", false⟩, ⟨"a", "3", false⟩]).1
  simpa using h

/-- A plugin that stamps its tag on the request payload, to observe the
order in which before-hooks run. -/
def tagPlugin (tag : String) (prio : Int) : SimpleGPTPlugin where
  priority := prio
  before_llm_request := fun p => { p with images := p.images ++ [tag] }

/-- C6: after any sequence of `register` calls the pipeline is totally
ordered by descending priority with equal priorities in registration
order; in particular, registering priorities [5, 10, 1] runs the
before-hooks in priority order [10, 5, 1]. -/
theorem C6_pipeline_order (regs : List (SimpleGPTPlugin × Option Int)) :
    ((registerFold regs).plugins.Pairwise prioGE ∧
      ∀ k : Int, (registerFold regs).plugins.filter (fun pr => pr.1 = k) =
        (regs.map effPair).filter (fun pr => pr.1 = k)) ∧
    ((registerFold [(tagPlugin "p5" 5, Option.none),
        (tagPlugin "p10" 10, Option.none),
        (tagPlugin "p1" 1, Option.none)]).run_before_llm_request
      { prompt := "" }).images = ["p10", "p5", "p1"] :=
  ⟨registerFold_sorted_stable regs, rfl⟩

/-- C7: running the before-request or after-response fold of a pipeline
with no registered plugins returns the input payload itself — the fold
performs no construction at all on an empty plugin list, so the returned
value is the argument, not a copy. -/
theorem C7_empty_pipeline_identity :
    (∀ p : LLMRequestPayload, PluginManager.run_before_llm_request ⟨[]⟩ p = p) ∧
    (∀ r : LLMResponsePayload, PluginManager.run_after_llm_response ⟨[]⟩ r = r) :=
  ⟨fun _ => rfl, fun _ => rfl⟩

/-- C5: `snapshot` returns the session's entries as a fresh copy (empty
for an unknown session), leaves the store untouched, and mutating the
returned object never affects later `append` or `snapshot` behaviour. -/
theorem C5_snapshot_copy (m : RefHistory) (hWF : m.WF) (sid : String) :
    m.snapshotValue sid = m.contents sid ∧
    (m.store.lookup sid = Option.none → m.snapshotValue sid = []) ∧
    ((m.snapshot sid).2).store = m.store ∧
    (∀ sid', ((m.snapshot sid).2).contents sid' = m.contents sid') ∧
    (∀ v sid' e sid'',
      ((((m.snapshot sid).2).mutate (m.snapshot sid).1 v).append sid' e).contents sid'' =
        (((m.snapshot sid).2).append sid' e).contents sid'') ∧
    (∀ v sid'',
      (((m.snapshot sid).2).mutate (m.snapshot sid).1 v).snapshotValue sid'' =
        ((m.snapshot sid).2).snapshotValue sid'') := by
  have hfresh : ∀ p ∈ ((m.snapshot sid).2).store, p.2 ≠ (m.snapshot sid).1 := by
    intro p hp
    have h1 : p.2 < m.nextRef := hWF p hp
    show p.2 ≠ m.nextRef
    omega
  refine ⟨RefHistory.snapshotValue_eq m sid, ?_, rfl,
    fun sid' => RefHistory.snapshot_contents m hWF sid sid',
    fun v sid' e sid'' =>
      RefHistory.mutate_invisible_append _ _ hfresh v sid' e sid'',
    fun v sid'' => RefHistory.mutate_invisible_snapshot _ _ hfresh v sid''⟩
  intro hnone
  rw [RefHistory.snapshotValue_eq]
  unfold RefHistory.contents
  rw [hnone]

/-- C5 witness. -/
theorem C5_snapshot_copy_witness :
    RefHistory.snapshotValue ⟨2, 1, fun _ => [], [("g", 0)]⟩ "h" = [] := by
  have h := (C5_snapshot_copy ⟨2, 1, fun _ => [], [("g", 0)]⟩
    (by intro p hp; simp at hp; subst hp; decide) "h").2.1
  exact h rfl

theorem isPrefixOf_append_self (a b : List Char) : a.isPrefixOf (a ++ b) = true := by
  induction a with
  | nil => simp [List.isPrefixOf]
  | cons c rest ih => simpa [List.isPrefixOf] using ih

theorem removeFirstSub_self (pat l : List Char) (hp : pat ≠ []) :
    removeFirstSub pat (pat ++ l) = l := by
  cases pat with
  | nil => cases hp rfl
  | cons c rest =>
    rw [List.cons_append]
    unfold removeFirstSub
    rw [← List.cons_append, if_pos (isPrefixOf_append_self (c :: rest) l),
      List.length_cons]
    rw [show (c :: rest) ++ l = c :: (rest ++ l) from rfl, List.drop_succ_cons]
    exact List.drop_left rest l

/-- C8: decoding an inline `base64://` payload that encodes bytes B gives
back exactly B, and normalizing such a segment produces a canonical data
URL whose base64 part is the encoding of B (which decodes back to B). -/
theorem C8_inline_roundtrip (B : List Nat) (hB : ∀ b ∈ B, b < 256) (env : PyEnv) :
    decode_inline_base64 (String.mk (base64Marker ++ b64Encode B)) = some B ∧
    (∃ mime, segment_to_data_url env
        { segType := "image", url := Option.none,
          file := some (String.mk (base64Marker ++ b64Encode B)),
          path := Option.none } =
      some ("data:" ++ mime ++ ";base64," ++ String.mk (b64Encode B))) ∧
    b64DecodeChars (b64Encode B) = some B := by
  have hdec : decode_inline_base64 (String.mk (base64Marker ++ b64Encode B)) =
      some B := by
    unfold decode_inline_base64
    rw [show (String.mk (base64Marker ++ b64Encode B)).data =
        base64Marker ++ b64Encode B from rfl]
    rw [removeFirstSub_self _ _ (by decide)]
    exact b64Decode_b64Encode B hB
  refine ⟨hdec, ?_, b64Decode_b64Encode B hB⟩
  refine ⟨resolve_mime env B Option.none
    (some (String.mk (base64Marker ++ b64Encode B))), ?_⟩
  have hne : String.mk (base64Marker ++ b64Encode B) ≠ "" := by
    intro hcon
    have h2 := congrArg String.data hcon
    simp [base64Marker] at h2
  unfold segment_to_data_url
  simp only
  rw [if_pos hne,
    if_pos (show base64Marker.isPrefixOf
      (String.mk (base64Marker ++ b64Encode B)).data = true from
      isPrefixOf_append_self base64Marker (b64Encode B)),
    hdec]
  rfl

/-- C8 witness. -/
theorem C8_inline_roundtrip_witness :
    decode_inline_base64 "base64://AQID" = some [1, 2, 3] := by
  have h := (C8_inline_roundtrip [1, 2, 3] (by decide)
    ⟨fun _ => false, fun _ => Option.none, fun _ => Option.none,
      fun _ => Option.none, fun _ => Option.none⟩).1
  rw [show ("base64://AQID" : String) =
    String.mk (base64Marker ++ b64Encode [1, 2, 3]) from by decide]
  exact h

/-- A body one byte over the 5 MiB ceiling. -/
def bigBytes : List Nat := List.replicate (MAX_IMAGE_BYTES + 1) 0

/-- World for the C4 counterexample: the file token names an existing but
oversized local file, while the segment also carries a small fetchable
URL. -/
def oversizeEnv : PyEnv where
  fsExists := fun p => p = "/tmp/big.png"
  fsRead := fun p => if p = "/tmp/big.png" then some bigBytes else Option.none
  net := fun u =>
    if u = "http://img.example/x" then some ([1, 2, 3], some "image/png")
    else Option.none
  sniff := fun _ => Option.none
  guessType := fun _ => Option.none

/-- When the file token is a non-inline, non-URL token whose local load
yields nothing, and the segment carries a fetchable small URL, the code
falls through to the URL and produces a canonical string. -/
theorem segment_fallthrough (env : PyEnv) (f u : String) (ct : Option String)
    (body : List Nat) (hf : f ≠ "")
    (hpre : ¬base64Marker.isPrefixOf f.data = true)
    (hurl : looks_like_url f = false) (hu : u ≠ "")
    (hload : load_local_file env f = Option.none)
    (hnet : env.net u = some (body, ct))
    (hsmall : ¬body.length > MAX_IMAGE_BYTES) :
    segment_to_data_url env
      { segType := "image", url := some u, file := some f,
        path := Option.none } =
      some (build_data_url env body ct (some f)) := by
  have hdl : download_image env u = (some body, ct) := by
    unfold download_image
    simp only [hnet]
    rw [if_neg hsmall]
  unfold segment_to_data_url
  dsimp only
  rw [if_pos hf, if_neg hpre,
    if_neg (show ¬(looks_like_url f && !optTruthy (some u)) = true from by
      rw [hurl]; simp)]
  by_cases hloc : is_local_path env f = true
  · rw [if_pos hloc]
    simp only [hload]
    rw [if_pos hu, hdl]
  · rw [if_neg hloc]
    simp only
    rw [if_pos hu, hdl]

/-- C4 counterexample: the file token resolves to an existing local file
larger than 5 MiB, yet normalization still produces a canonical data URL,
because the code falls through to the segment's URL. -/
theorem C4_counterexample :
    oversizeEnv.fsExists "/tmp/big.png" = true ∧
    oversizeEnv.fsRead "/tmp/big.png" = some bigBytes ∧
    bigBytes.length = MAX_IMAGE_BYTES + 1 ∧
    segment_to_data_url oversizeEnv
      { segType := "image", url := some "http://img.example/x",
        file := some "/tmp/big.png", path := Option.none } =
      some "data:image/png;base64,AQID" := by
  have hlen : bigBytes.length = MAX_IMAGE_BYTES + 1 := by
    simp [bigBytes]
  have hres : resolve_path oversizeEnv "/tmp/big.png" = some "/tmp/big.png" := by
    unfold resolve_path
    rw [if_neg (show ¬urlScheme "/tmp/big.png" = "file" from by decide),
      if_pos (show oversizeEnv.fsExists "/tmp/big.png" = true from rfl)]
  have hload : load_local_file oversizeEnv "/tmp/big.png" = Option.none := by
    simp only [load_local_file, hres,
      show oversizeEnv.fsRead "/tmp/big.png" = some bigBytes from rfl]
    rw [if_pos (show bigBytes.length > MAX_IMAGE_BYTES from by rw [hlen]; omega)]
  refine ⟨rfl, rfl, hlen, ?_⟩
  rw [segment_fallthrough oversizeEnv "/tmp/big.png" "http://img.example/x"
    (some "image/png") [1, 2, 3] (by decide) (by decide) (by decide) (by decide)
    hload rfl (by decide)]
  rfl

/-- C4, amended: an oversized local read and an oversized fetched body
themselves always yield no bytes, and a reference whose only candidate
source is such a file yields the unrepresentable signal; but a reference
may still normalize through a different source (see the counterexample). -/
theorem C4_oversize_amended (env : PyEnv) (f : String) (bytes : List Nat)
    (hread : ∀ q, resolve_path env f = some q → env.fsRead q = some bytes)
    (hbig : bytes.length > MAX_IMAGE_BYTES) :
    load_local_file env f = Option.none ∧
    (∀ u ct, env.net u = some (bytes, ct) →
      download_image env u = (Option.none, Option.none)) ∧
    (¬base64Marker.isPrefixOf f.data = true → looks_like_url f = false →
      f ≠ "" →
      segment_to_data_url env
        { segType := "image", url := Option.none, file := some f,
          path := Option.none } = Option.none) := by
  have hload : load_local_file env f = Option.none := by
    unfold load_local_file
    cases hr : resolve_path env f with
    | none => rfl
    | some q =>
      simp only [hread q hr]
      rw [if_pos hbig]
  refine ⟨hload, ?_, ?_⟩
  · intro u ct hnet
    unfold download_image
    simp only [hnet]
    rw [if_pos hbig]
  · intro hpre hurl hne
    unfold segment_to_data_url
    simp only
    rw [if_pos hne, if_neg hpre,
      if_neg (show ¬(looks_like_url f && !optTruthy Option.none) = true from by
        rw [hurl]; simp)]
    by_cases hloc : is_local_path env f = true
    · rw [if_pos hloc]
      simp only [hload]
    · rw [if_neg hloc]

theorem dropWhile_head_not {p : Char → Bool} {l : List Char} {c : Char}
    (h : (l.dropWhile p).head? = some c) : p c = false := by
  induction l with
  | nil => cases h
  | cons a rest ih =>
    rw [List.dropWhile_cons] at h
    by_cases hp : p a = true
    · rw [if_pos hp] at h
      exact ih h
    · rw [if_neg hp] at h
      simp only [List.head?_cons, Option.some.injEq] at h
      subst h
      simpa using hp

/-- The stripped string starts with a non-whitespace character. -/
theorem pyStripChars_head {l : List Char} {c : Char}
    (h : (pyStripChars l).head? = some c) : isPyWs c = false := by
  unfold pyStripChars at h
  set r := l.dropWhile isPyWs with hr
  have hsuf : List.IsSuffix (r.reverse.dropWhile isPyWs) r.reverse :=
    List.dropWhile_suffix isPyWs
  have hpre : List.IsPrefix ((r.reverse.dropWhile isPyWs).reverse) r :=
    List.reverse_suffix.mp (by simpa using hsuf)
  obtain ⟨t, ht⟩ := hpre
  have hhead : r.head? = some c := by
    rw [← ht]
    cases hx : (r.reverse.dropWhile isPyWs).reverse with
    | nil => rw [hx] at h; cases h
    | cons a tl =>
      rw [hx] at h
      simp only [List.head?_cons, Option.some.injEq] at h
      subst h
      simp [hx]
  exact dropWhile_head_not hhead

/-- The stripped string ends with a non-whitespace character. -/
theorem pyStripChars_getLast {l : List Char} {c : Char}
    (h : (pyStripChars l).getLast? = some c) : isPyWs c = false := by
  unfold pyStripChars at h
  rw [List.getLast?_reverse] at h
  exact dropWhile_head_not h

/-- The canonical successful chat-completion body carrying `content` s. -/
def respWithContent (s : String) : PyVal :=
  PyVal.dict [("choices", PyVal.list
    [PyVal.dict [("message", PyVal.dict [("content", PyVal.str s)])]])]

theorem parse_respWithContent (s : String) (hs : s ≠ "") :
    parseLLMContent (respWithContent s) = .ok (some (pyStripStr s)) := by
  have h1 : (PyVal.str s).truthy = true := by
    simp [PyVal.truthy, hs]
  unfold parseLLMContent respWithContent
  simp [pyGet, pyIndexZero, pyGetD, List.lookup, PyVal.truthy,
    List.isEmpty, h1, hs]

/-- A trivial prompt-template formatter for concrete runs. -/
def fmt0 : String → String → String → String → String := fun t _ _ _ => t

/-- A concrete group message addressed to the bot. -/
def evTome : GroupEvent :=
  { userId := "u1", selfId := "self", plaintext := "hello", groupId := "1",
    isTome := true }

/-- C9: for a successful remote call whose `choices[0].message.content` is
a non-empty string s, `call_large_language_model` returns s with leading
and trailing whitespace removed, so the emitted reply never carries
surrounding whitespace; when s is whitespace-only the stripped result is
empty and the handler emits the fallback text instead. -/
theorem C9_content_stripped (cfg : Config)
    (fmt : String → String → String → String → String) (ev : GroupEvent)
    (draw : ℚ) (hist : HistoryManager) (s : String)
    (hkey : cfg.simple_gpt_api_key ≠ "") (hs : s ≠ "")
    (hG : ev.isGroup = true) (hSelf : ev.userId ≠ ev.selfId)
    (hTome : ev.isTome = true) :
    (∀ prompt, call_large_language_model cfg prompt (some (respWithContent s)) =
      .ok (some (pyStripStr s))) ∧
    (∀ c, (pyStripStr s).data.head? = some c → isPyWs c = false) ∧
    (∀ c, (pyStripStr s).data.getLast? = some c → isPyWs c = false) ∧
    (handler fmt cfg ev draw (some (respWithContent s)) hist =
      .ok ([if pyStripStr s = "" then cfg.simple_gpt_failure_reply
          else pyStripStr s],
        if (if pyStripStr s = "" then cfg.simple_gpt_failure_reply
            else pyStripStr s) ≠ "" then
          (hist.append ("group_" ++ ev.groupId)
            ⟨displayName ev, plainTextOf ev, false⟩).append
            ("group_" ++ ev.groupId)
            ⟨"机器人", (if pyStripStr s = "" then cfg.simple_gpt_failure_reply
              else pyStripStr s), true⟩
        else hist.append ("group_" ++ ev.groupId)
          ⟨displayName ev, plainTextOf ev, false⟩)) := by
  have hcall : ∀ prompt,
      call_large_language_model cfg prompt (some (respWithContent s)) =
        .ok (some (pyStripStr s)) := by
    intro prompt
    unfold call_large_language_model
    rw [if_neg hkey]
    exact parse_respWithContent s hs
  have hneed : effectiveReplyNeeded cfg ev draw = true := by
    unfold effectiveReplyNeeded should_reply
    rw [hTome]
    simp
  refine ⟨hcall, fun c hc => pyStripChars_head hc,
    fun c hc => pyStripChars_getLast hc, ?_⟩
  exact handler_reply fmt cfg ev draw _ hist (some (pyStripStr s)) hG hSelf
    hneed hcall

/-- C9 witness. -/
theorem C9_content_stripped_witness :
    handler fmt0 { simple_gpt_api_key := "k" } evTome 0
      (some (respWithContent " hi ")) (mkHistoryManager 20) =
        .ok (["hi"],
          ((mkHistoryManager 20).append "group_1"
            ⟨"用户u1", "hello", false⟩).append "group_1"
            ⟨"机器人", "hi", true⟩) := by
  have h := (C9_content_stripped { simple_gpt_api_key := "k" } fmt0 evTome 0
    (mkHistoryManager 20) " hi " (by decide) (by decide) rfl (by decide)
    rfl).2.2.2
  rw [show pyStripStr " hi " = "hi" from by decide] at h
  simp only [if_neg (show ¬("hi" : String) = "" from by decide)] at h
  rw [if_pos (show ("hi" : String) ≠ "" from by decide)] at h
  exact h

/-- C2 counterexample: two concrete runs refute the claim as stated.
With an empty configured fallback text the emission still happens but the
bot turn is not recorded; with a type-malformed response body
(`choices` a string) the handler raises and emits nothing at all. -/
theorem C2_counterexample :
    (handler fmt0 { simple_gpt_failure_reply := "" } evTome 0 Option.none
        (mkHistoryManager 20) =
      .ok ([""], (mkHistoryManager 20).append "group_1"
        ⟨"用户u1", "hello", false⟩)) ∧
    (handler fmt0 { simple_gpt_api_key := "k" } evTome 0
        (some (PyVal.dict [("choices", PyVal.str "oops")]))
        (mkHistoryManager 20) = .error ()) := by
  constructor
  · rfl
  · rfl

/-- C2, amended: for every message that enters reply processing, whenever
`call_large_language_model` yields no text (missing credential, transport
failure, or a gracefully-malformed response), the configured fallback text
is emitted, the user turn is always recorded, and the bot turn (carrying
the emitted text) is recorded exactly when the fallback text is non-empty.
(A type-malformed response instead raises: nothing is emitted or
recorded — see the counterexample.) -/
theorem C2_fallback_amended (fmt : String → String → String → String → String)
    (cfg : Config) (ev : GroupEvent) (draw : ℚ) (remote : Option PyVal)
    (hist : HistoryManager)
    (hG : ev.isGroup = true) (hSelf : ev.userId ≠ ev.selfId)
    (hNeed : effectiveReplyNeeded cfg ev draw = true)
    (hNone : ∀ prompt, call_large_language_model cfg prompt remote =
      .ok Option.none) :
    handler fmt cfg ev draw remote hist =
      .ok ([cfg.simple_gpt_failure_reply],
        if cfg.simple_gpt_failure_reply ≠ "" then
          (hist.append ("group_" ++ ev.groupId)
            ⟨displayName ev, plainTextOf ev, false⟩).append
            ("group_" ++ ev.groupId)
            ⟨"机器人", cfg.simple_gpt_failure_reply, true⟩
        else hist.append ("group_" ++ ev.groupId)
          ⟨displayName ev, plainTextOf ev, false⟩) :=
  handler_reply fmt cfg ev draw remote hist Option.none hG hSelf hNeed hNone

/-- C2 amended witness: no credential configured, default fallback. -/
theorem C2_fallback_amended_witness :
    handler fmt0 {} evTome 0 Option.none (mkHistoryManager 20) =
      .ok (["呜呜，暂时无法连接到大模型，请稍后再试呀。"],
        ((mkHistoryManager 20).append "group_1"
          ⟨"用户u1", "hello", false⟩).append "group_1"
          ⟨"机器人", "呜呜，暂时无法连接到大模型，请稍后再试呀。", true⟩) := by
  have h := C2_fallback_amended fmt0 {} evTome 0 Option.none
    (mkHistoryManager 20) rfl (by decide) rfl (fun _ => rfl)
  rw [if_pos (show ({} : Config).simple_gpt_failure_reply ≠ "" from by
    decide)] at h
  exact h

/-- C1 (code bug): the handler never runs the plugin pipeline (nor image
extraction): on a response whose content carries a `<think>` block, the
emitted reply is the raw stripped remote result, while the after-response
pipeline with the auto-registered `RemoveThinkTagPlugin` would have
produced the cleaned text — the two differ. -/
theorem C1_hooks_not_applied :
    handler fmt0 { simple_gpt_api_key := "k" } evTome 0
        (some (respWithContent "<think>reasoning</think>hi"))
        (mkHistoryManager 20) =
      .ok (["<think>reasoning</think>hi"],
        ((mkHistoryManager 20).append "group_1"
          ⟨"用户u1", "hello", false⟩).append "group_1"
          ⟨"机器人", "<think>reasoning</think>hi", true⟩) ∧
    (pluginManagerLoaded.run_after_llm_response
      { content := "<think>reasoning</think>hi",
        request := { prompt := "" } }).content = "hi" ∧
    ("<think>reasoning</think>hi" : String) ≠ "hi" := by
  refine ⟨rfl, ?_, by decide⟩
  show removeThinkContent "<think>reasoning</think>hi" = "hi"
  decide

/-- C10: `RemoveThinkTagPlugin.after_llm_response` prepends the fixed
marker and strips `<think>` segments; when the stripped form of the
original content is non-empty the result is exactly the original content
with all think segments removed and surrounding whitespace trimmed, and
when it is empty (content entirely think segments and whitespace) the
result keeps the injected marker and the original text unchanged. -/
theorem C10_remove_think (content : String) :
    (pyStripChars (stripThink content.data) ≠ [] →
      removeThinkContent content =
        String.mk (pyStripChars (stripThink content.data))) ∧
    (pyStripChars (stripThink content.data) = [] →
      removeThinkContent content = String.mk (markerChars ++ content.data)) := by
  have hckey := removeThink_cleaned content
  simp only [removeThinkContent]
  rw [hckey]
  constructor
  · intro h
    rw [show (pyStripChars (stripThink content.data)).isEmpty = false from by
      cases hx : pyStripChars (stripThink content.data) with
      | nil => exact absurd hx h
      | cons a t => rfl]
    simp
  · intro h
    rw [h]
    simp

/-- C10 witness. -/
theorem C10_remove_think_witness :
    removeThinkContent "a<think>x</think> b " = "a b" := by
  have h := (C10_remove_think "a<think>x</think> b ").1 (by decide)
  rw [h]
  decide

/-- C4 amended witness. -/
theorem C4_oversize_amended_witness :
    segment_to_data_url oversizeEnv
      { segType := "image", url := Option.none, file := some "/tmp/big.png",
        path := Option.none } = Option.none := by
  have h := (C4_oversize_amended oversizeEnv "/tmp/big.png" bigBytes
    (by
      intro q hq
      have hq2 : q = "/tmp/big.png" := by
        unfold resolve_path at hq
        rw [if_neg (show ¬urlScheme "/tmp/big.png" = "file" from by decide),
          if_pos (show oversizeEnv.fsExists "/tmp/big.png" = true from rfl)] at hq
        exact (Option.some.inj hq).symm
      subst hq2
      rfl)
    (by simp [bigBytes])).2.2
  exact h (by decide) (by decide) (by decide)

end SimpleGPT
